import Mathlib

/-!
# graph-database: traversal construction and result normalisation

A shallow embedding of `pkg/graph` (`types.go`, `errors.go`, `helpers.go`,
`graph.go`).  Go values of static type `any` are a closed sum of the dynamic
types that reach this layer, a Gremlin traversal is the list of steps the
driver has accumulated, and the remote database is an oracle held by the two
connections of the service.  Every facade operation returns its Go result
together with the list of traversals it submitted for execution.
-/

namespace GraphDB

/-! ## Values of static type `any` -/

/-- Dynamic Go values stored under `any`: the untyped nil, and values of the
dynamic types `bool`, `int` (native width), `int64`, `float64` (by its bit
pattern) and `string`. -/
inductive Value where
  | nil
  | bool (b : Bool)
  | int (n : Int)
  | int64 (n : Int)
  | float64 (bits : Nat)
  | str (s : String)
  deriving DecidableEq

/-- Go types a caller can name as the type parameter `T` of
`ConvertVertexProperty`: the concrete types of `Value`, and the empty
interface `any`. -/
inductive GoType where
  | bool
  | int
  | int64
  | float64
  | string
  | any
  deriving DecidableEq

/-- Dynamic type of a value; the nil interface value has none. -/
def Value.typeOf : Value → Option GoType
  | .nil => none
  | .bool _ => some .bool
  | .int _ => some .int
  | .int64 _ => some .int64
  | .float64 _ => some .float64
  | .str _ => some .string

/-- Go type assertion `x.(T)`: it holds for a concrete `T` when the dynamic
type of `x` is `T`, and for the interface `any` when `x` is not nil. -/
def typeAssert (T : GoType) (x : Value) : Option Value :=
  match x.typeOf with
  | none => none
  | some U => if T = GoType.any ∨ U = T then some x else none

/-- Two's-complement truncation of an integer to `w` bits: the Go conversion
`int(x)` of an `int64` on a target whose `int` is `w` bits wide. -/
def wrapInt (w : Nat) (n : Int) : Int :=
  (n + 2 ^ (w - 1)) % 2 ^ w - 2 ^ (w - 1)

/-- Range of a signed `w`-bit integer. -/
def inRange (w : Nat) (n : Int) : Prop :=
  -(2 ^ (w - 1)) ≤ n ∧ n < 2 ^ (w - 1)

instance inRangeDecidable (w : Nat) (n : Int) : Decidable (inRange w n) :=
  inferInstanceAs (Decidable (-(2 ^ (w - 1)) ≤ n ∧ n < 2 ^ (w - 1)))

/-- Decimal rendering of `strconv.Itoa`. -/
def itoa : Int → String
  | Int.ofNat m => Nat.repr m
  | Int.negSucc m => "-" ++ Nat.repr (m + 1)

/-! ## types.go -/

def idField : String := "id"

def labelField : String := "label"

/-- Go map `map[string]any`: a key is present when the lookup is `some`. -/
abbrev PropertyMap := String → Option Value

/-- The empty map of `make(map[string]any)`. -/
def PropertyMap.empty : PropertyMap := fun _ => none

/-- Map assignment `m[key] = v`. -/
def PropertyMap.set (m : PropertyMap) (key : String) (v : Value) : PropertyMap :=
  fun k => if k = key then some v else m k

structure Vertex where
  Id : String
  Label : String
  Properties : PropertyMap

structure Property where
  Key : String
  Value : Value
  deriving DecidableEq

/-- The Go type `TraversalDirection` is a named string type. -/
abbrev TraversalDirection := String

def TraversalDirectionOut : TraversalDirection := "OUT"

def TraversalDirectionIn : TraversalDirection := "IN"

def TraversalDirectionBoth : TraversalDirection := "BOTH"

/-! ## errors.go -/

/-- Errors of the package: the sentinels of `errors.go`, the formatted errors
built with `fmt.Errorf` (one constructor per format string, carrying the
arguments), an error reported by the driver, and `errors.Wrap`. -/
inductive Error where
  | ErrNoResults
  | ErrLabelCannotBeEmpty
  | errNoEdgeLabels
  | errInvalidTraversalDirection
  | errDataInterfaceConversion
  | errValueToStringConversion
  | errKeyToStringConversion
  | errGremlinTraversalTimeout
  | ErrNeptuneDisabled
  | unableToConvertValue (v : Value)
  | expectedLabel (label got : String)
  | expectedProperty (key : String)
  | expectedPropertyType (key : String) (T : GoType) (property : Value)
  | driver (code : Nat)
  | wrap (err : Error) (msg : String)
  deriving DecidableEq

/-- The function `errors.Cause` of `github.com/pkg/errors`: strip every wrapper. -/
def Error.cause : Error → Error
  | .wrap err _ => err.cause
  | e => e

/-! ## Traversals and result records -/

/-- Steps of a Gremlin traversal, as appended by the driver's builder
methods.  `HasKV` is `Has(key, value)`, `HasLKV` is `Has(label, key, value)`;
`Coalesce` and `Where` carry anonymous sub-traversals. -/
inductive Step where
  | V
  | AddV (label : String)
  | HasLabel (label : String)
  | HasKV (key : String) (value : Value)
  | HasLKV (label key : String) (value : Value)
  | Property (key : String) (value : Value)
  | ElementMap
  | Drop
  | Fold
  | Unfold
  | Coalesce (a b : List Step)
  | As (name : String)
  | AddE (label : String)
  | From (name : String)
  | OutE (label : String)
  | InV
  | Where (t : List Step)
  | Out (label : String)
  | In (label : String)
  | Both (label : String)

/-- The two connections a `GraphService` holds. -/
inductive Conn where
  | reader
  | writer
  deriving DecidableEq

/-- The value behind `*gremlingo.GraphTraversal`: the traversal source it was
spawned from and the steps added so far. -/
structure GraphTraversal where
  source : Conn
  steps : List Step

/-- A builder method of the driver appends one step. -/
def GraphTraversal.add (v : GraphTraversal) (st : Step) : GraphTraversal :=
  { v with steps := v.steps ++ [st] }

/-- The field `Data` of a `gremlingo.Result`: a `map[any]any`, given by its
entries in the order the `range` loop visits them, or something else. -/
inductive Data where
  | map (entries : List (Value × Value))
  | list (items : List Value)
  | scalar (v : Value)

/-! ## graph.go: setTraversalPath and dataToVertex -/

def setTraversalPath (v : GraphTraversal) (direction : TraversalDirection)
    (edgeLabels : List String) : Except Error GraphTraversal :=
  if edgeLabels.length = 0 then .error .errNoEdgeLabels
  else if direction = TraversalDirectionOut then
    .ok (edgeLabels.foldl (fun v e => v.add (Step.Out e)) v)
  else if direction = TraversalDirectionIn then
    .ok (edgeLabels.foldl (fun v e => v.add (Step.In e)) v)
  else if direction = TraversalDirectionBoth then
    .ok (edgeLabels.foldl (fun v e => v.add (Step.Both e)) v)
  else .error .errInvalidTraversalDirection

/-- The `range data` loop of `dataToVertex` over the entries still to visit,
with the vertex built so far; `w` is the bit width of the native `int`. -/
def dataToVertexLoop (w : Nat) : List (Value × Value) → Vertex → Except Error Vertex
  | [], vertex => .ok vertex
  | (k, v) :: rest, vertex =>
    match k with
    | .str key =>
      if key = idField then
        match v with
        | .int64 idInt64 => dataToVertexLoop w rest { vertex with Id := itoa (wrapInt w idInt64) }
        | .int idInt => dataToVertexLoop w rest { vertex with Id := itoa idInt }
        | .str idStr => dataToVertexLoop w rest { vertex with Id := idStr }
        | _ => .error (.unableToConvertValue v)
      else if key = labelField then
        match v with
        | .str label => dataToVertexLoop w rest { vertex with Label := label }
        | _ => .error .errValueToStringConversion
      else
        dataToVertexLoop w rest { vertex with Properties := vertex.Properties.set key v }
    | _ => .error .errKeyToStringConversion

def dataToVertex (w : Nat) (r : Data) : Except Error Vertex :=
  match r with
  | .map data => dataToVertexLoop w data { Id := "", Label := "", Properties := PropertyMap.empty }
  | _ => .error .errDataInterfaceConversion

/-! ## helpers.go -/

def ConvertVertexProperty (T : GoType) (v : Vertex) (label key : String) : Except Error Value :=
  if v.Label ≠ label then .error (.expectedLabel label v.Label)
  else
    match v.Properties key with
    | none => .error (.expectedProperty key)
    | some property =>
      match typeAssert T property with
      | none => .error (.expectedPropertyType key T property)
      | some converted => .ok converted

/-! ## service.go and the execution helpers of graph.go -/

/-- What the `select` of `traverseAndCheckError` observes: the promise channel
delivers an error value (possibly nil) first, or the five-second timer fires
first. -/
inductive IterateOutcome where
  | done (err : Option Error)
  | timeout

/-- One connection to the remote database, by what the driver answers when a
traversal is submitted on it: `ToList` gives the result records or a driver
error, `Iterate` gives an outcome. -/
structure GraphConnection where
  toList : List Step → Except Error (List Data)
  iterate : List Step → IterateOutcome

structure GraphService where
  reader : GraphConnection
  writer : GraphConnection

/-- Connection a traversal is bound to. -/
def GraphService.conn (s : GraphService) : Conn → GraphConnection
  | .reader => s.reader
  | .writer => s.writer

/-- Result of an operation together with the traversals it submitted to the
remote database, in order. -/
abbrev Traced (α : Type) := α × List GraphTraversal

def returnResultsFromTraversal (s : GraphService) (v : GraphTraversal) :
    Traced (Except Error (List Data)) :=
  match (s.conn v.source).toList v.steps with
  | .error err => (.error err, [v])
  | .ok results => (.ok results, [v])

def traverseAndCheckError (s : GraphService) (v : GraphTraversal) : Traced (Option Error) :=
  match (s.conn v.source).iterate v.steps with
  | .done err => (err, [v])
  | .timeout => (some .errGremlinTraversalTimeout, [v])

/-- The loop `for _, r := range results` shared by `GetVertices` and
`GetVerticesByEdges`, with the slice `vertices` built so far. -/
def convertResults (w : Nat) : List Data → List Vertex → Except Error (List Vertex)
  | [], vertices => .ok vertices
  | r :: rest, vertices =>
    match dataToVertex w r with
    | .error err => .error (.wrap err "unable to convert data to vertex")
    | .ok vertex => convertResults w rest (vertices ++ [vertex])

/-! ## graph.go: the facade -/

def AddVertex (s : GraphService) (label : String) (property : Property) : Traced (Option Error) :=
  let errMsg := "gremlin error adding vertex"
  if label = "" then (some (.wrap .ErrLabelCannotBeEmpty errMsg), [])
  else
    let v : GraphTraversal :=
      ((((GraphTraversal.mk .writer []).add .V).add
        (.HasLKV label property.Key property.Value)).add .Fold).add
        (.Coalesce [.Unfold] [.AddV label, .Property property.Key property.Value])
    match traverseAndCheckError s v with
    | (some err, tr) => (some (.wrap err errMsg), tr)
    | (none, tr) => (none, tr)

def GetVertices (w : Nat) (s : GraphService) (label : String) (property : List Property) :
    Traced (Except Error (List Vertex)) :=
  let errMsg := "gremlin error getting vertices"
  if label = "" then (.error (.wrap .ErrLabelCannotBeEmpty errMsg), [])
  else
    let v := ((GraphTraversal.mk .reader []).add .V).add (.HasLabel label)
    let v := property.foldl (fun v p => v.add (.HasKV p.Key p.Value)) v
    let v := v.add .ElementMap
    match returnResultsFromTraversal s v with
    | (.error err, tr) => (.error (.wrap err errMsg), tr)
    | (.ok results, tr) => (convertResults w results [], tr)

def AddPropertiesToVertex (w : Nat) (s : GraphService) (label : String)
    (existing new : List Property) : Traced (Option Error) :=
  let errMsg := "gremlin error adding property to vertex"
  match GetVertices w s label existing with
  | (.error err, tr) => (some (.wrap err errMsg), tr)
  | (.ok existingV, tr) =>
    if existingV.length = 0 then (some (.wrap .ErrNoResults errMsg), tr)
    else
      let v := (GraphTraversal.mk .writer []).add .V
      let v := existing.foldl (fun v p => v.add (.HasLKV label p.Key p.Value)) v
      let v := new.foldl (fun v p => v.add (.Property p.Key p.Value)) v
      match traverseAndCheckError s v with
      | (some err, tr2) => (some (.wrap err errMsg), tr ++ tr2)
      | (none, tr2) => (none, tr ++ tr2)

def DeleteVertex (s : GraphService) (label : String) (properties : List Property) :
    Traced (Option Error) :=
  let errMsg := "gremlin error deleting vertex"
  if label = "" then (some (.wrap .ErrLabelCannotBeEmpty errMsg), [])
  else
    let v := (GraphTraversal.mk .writer []).add .V
    let v := properties.foldl (fun v p => v.add (.HasLKV label p.Key p.Value)) v
    let v := v.add .Drop
    match traverseAndCheckError s v with
    | (some err, tr) => (some (.wrap err errMsg), tr)
    | (none, tr) => (none, tr)

def AddEdge (s : GraphService) (outLabel : String) (out : Property) (inLabel : String)
    (inp : Property) (edgeLabel : String) : Traced (Option Error) :=
  let errMsg := "gremlin error adding edge"
  if outLabel = "" ∨ inLabel = "" then (some (.wrap .ErrLabelCannotBeEmpty errMsg), [])
  else
    let v : GraphTraversal :=
      ((((((GraphTraversal.mk .writer []).add .V).add
        (.HasLKV outLabel out.Key out.Value)).add
        (.As "a")).add .V).add (.HasLKV inLabel inp.Key inp.Value)).add
        (.AddE edgeLabel) |>.add (.From "a")
    match traverseAndCheckError s v with
    | (some err, tr) => (some (.wrap err errMsg), tr)
    | (none, tr) => (none, tr)

def RemoveEdge (s : GraphService) (outLabel : String) (out : Property) (inLabel : String)
    (inp : Property) (edgeLabel : String) : Traced (Option Error) :=
  let errMsg := "gremlin error removing edge"
  if outLabel = "" ∨ inLabel = "" then (some (.wrap .ErrLabelCannotBeEmpty errMsg), [])
  else
    let v : GraphTraversal :=
      (((((GraphTraversal.mk .writer []).add .V).add
        (.HasLKV outLabel out.Key out.Value)).add
        (.OutE edgeLabel)).add
        (.Where [.InV, .HasLKV inLabel inp.Key inp.Value])).add .Drop
    match traverseAndCheckError s v with
    | (some err, tr) => (some (.wrap err errMsg), tr)
    | (none, tr) => (none, tr)

def GetVerticesByEdges (w : Nat) (s : GraphService) (direction : TraversalDirection)
    (fromVertexLabel : String) (fromVertexProperties : List Property)
    (edgeLabels : List String) : Traced (Except Error (List Vertex)) :=
  let errMsg := "gremlin error traversing request"
  if fromVertexLabel = "" then (.error (.wrap .ErrLabelCannotBeEmpty errMsg), [])
  else
    let v := ((GraphTraversal.mk .reader []).add .V).add (.HasLabel fromVertexLabel)
    let v := fromVertexProperties.foldl (fun v p => v.add (.HasKV p.Key p.Value)) v
    match setTraversalPath v direction edgeLabels with
    | .error err => (.error (.wrap err errMsg), [])
    | .ok v =>
      let v := v.add .ElementMap
      match returnResultsFromTraversal s v with
      | (.error err, tr) => (.error (.wrap err errMsg), tr)
      | (.ok results, tr) => (convertResults w results [], tr)

/-! ## The remote graph, for the steps that select, read, update and remove vertices

The database and its driver are outside the repository.  This is the meaning
Gremlin gives to the steps `V`, `HasLabel`, `Has`, `Property`, `Drop` and
`ElementMap` on a graph without edges, with single-valued properties, the
values of a query compared with the stored ones as the driver sends them; the
other steps are left without a meaning. -/

/-- A vertex stored in the remote graph. -/
structure GVertex where
  id : Int
  label : String
  props : List (String × Value)
  deriving DecidableEq

/-- A query argument as the driver sends it: a Go `int` and a Go `int64` both
travel as a Gremlin `Long`, which comes back as an `int64`; the other values
travel unchanged. -/
def Value.onWire : Value → Value
  | .int n => .int64 n
  | v => v

/-- Value of a property of a stored vertex. -/
def GVertex.get (x : GVertex) (key : String) : Option Value :=
  (x.props.find? (fun kv => kv.1 = key)).map Prod.snd

/-- Set a property of a stored vertex, replacing the value it had. -/
def GVertex.put (x : GVertex) (key : String) (value : Value) : GVertex :=
  { x with props := (key, value) :: x.props.filter (fun kv => kv.1 ≠ key) }

/-- Record the step `ElementMap` emits for a vertex. -/
def GVertex.elementMap (x : GVertex) : Data :=
  .map ((Value.str "id", Value.int64 x.id) :: (Value.str "label", Value.str x.label) ::
    x.props.map (fun kv => (Value.str kv.1, kv.2)))

/-- State of a running traversal: the graph, the vertices the traversers sit
on, and the records emitted. -/
structure GState where
  graph : List GVertex
  traversers : List GVertex
  results : List Data

/-- Meaning of one step. -/
def GState.step (st : GState) : Step → Option GState
  | .V => some { st with traversers := st.graph }
  | .HasLabel label =>
    some { st with traversers := st.traversers.filter (fun x => x.label = label) }
  | .HasKV key value =>
    some { st with traversers :=
      st.traversers.filter (fun x => x.get key = some value.onWire) }
  | .HasLKV label key value =>
    some { st with traversers :=
      st.traversers.filter (fun x => x.label = label ∧ x.get key = some value.onWire) }
  | .Property key value =>
    some { graph := st.graph.map (fun x =>
             if st.traversers.any (fun t => t.id = x.id) then x.put key value.onWire else x),
           traversers := st.traversers.map (fun t => t.put key value.onWire),
           results := st.results }
  | .Drop =>
    some { graph := st.graph.filter (fun x => !st.traversers.any (fun t => t.id = x.id)),
           traversers := [],
           results := [] }
  | .ElementMap => some { st with results := st.traversers.map GVertex.elementMap }
  | _ => none

/-- Run the steps of a traversal, in order, from a state. -/
def runSteps : List Step → GState → Option GState
  | [], st => some st
  | step :: rest, st =>
    match st.step step with
    | none => none
    | some st2 => runSteps rest st2

/-- Graph left by a traversal. -/
def graphAfter (g : List GVertex) (steps : List Step) : Option (List GVertex) :=
  (runSteps steps { graph := g, traversers := [], results := [] }).map GState.graph

/-- A connection to a database holding the graph `g`. -/
def GraphConnection.onGraph (g : List GVertex) : GraphConnection where
  toList := fun steps =>
    match runSteps steps { graph := g, traversers := [], results := [] } with
    | some st => .ok st.results
    | none => .error (.driver 0)
  iterate := fun steps =>
    match runSteps steps { graph := g, traversers := [], results := [] } with
    | some _ => .done none
    | none => .done (some (.driver 0))

/-- A service whose reader and writer both see the graph `g`. -/
def GraphService.onGraph (g : List GVertex) : GraphService where
  reader := GraphConnection.onGraph g
  writer := GraphConnection.onGraph g

/-- A two-vertex graph: a dog and a person. -/
def sampleGraph : List GVertex :=
  [{ id := 1, label := "Dog", props := [("name", Value.str "Rex")] },
   { id := 2, label := "Person", props := [("name", Value.str "Ada")] }]

/-- A stored vertex that has the label and every one of the properties, the
values compared as the driver sends them. -/
def hasLabelAndProperties (label : String) (props : List Property) (x : GVertex) : Bool :=
  decide (x.label = label) && props.all (fun p => decide (x.get p.Key = some p.Value.onWire))

/-! ## Reading of the loop of dataToVertex, one entry at a time -/

/-- An entry the loop of `dataToVertex` gets past: a string key, whose value
is an `int64`, an `int` or a string under "id", and a string under "label". -/
def entryOk (kv : Value × Value) : Bool :=
  match kv.1 with
  | .str key =>
    if key = idField then
      match kv.2 with
      | .int64 _ => true
      | .int _ => true
      | .str _ => true
      | _ => false
    else if key = labelField then
      match kv.2 with
      | .str _ => true
      | _ => false
    else true
  | _ => false

/-- Error the loop of `dataToVertex` returns at an entry it does not get past. -/
def entryError (kv : Value × Value) : Error :=
  match kv.1 with
  | .str key =>
    if key = idField then .unableToConvertValue kv.2
    else .errValueToStringConversion
  | _ => .errKeyToStringConversion

/-- Effect of one accepted entry on the vertex under construction. -/
def applyEntry (w : Nat) (vertex : Vertex) (kv : Value × Value) : Vertex :=
  match kv.1 with
  | .str key =>
    if key = idField then
      match kv.2 with
      | .int64 idInt64 => { vertex with Id := itoa (wrapInt w idInt64) }
      | .int idInt => { vertex with Id := itoa idInt }
      | .str idStr => { vertex with Id := idStr }
      | _ => vertex
    else if key = labelField then
      match kv.2 with
      | .str label => { vertex with Label := label }
      | _ => vertex
    else { vertex with Properties := vertex.Properties.set key kv.2 }
  | _ => vertex

/-! ## Lemmas: the loop of dataToVertex -/

theorem labelField_ne_idField : labelField ≠ idField := by decide

theorem loop_cons_ok (w : Nat) (kv : Value × Value) (rest : List (Value × Value))
    (vertex : Vertex) (h : entryOk kv = true) :
    dataToVertexLoop w (kv :: rest) vertex = dataToVertexLoop w rest (applyEntry w vertex kv) := by
  obtain ⟨k, v⟩ := kv
  cases k <;> simp [entryOk] at h
  rename_i key
  by_cases h1 : key = idField
  · cases v <;> simp [h1] at h <;> simp [dataToVertexLoop, applyEntry, h1]
  · by_cases h2 : key = labelField
    · subst h2
      cases v <;> simp [labelField_ne_idField] at h
      simp [dataToVertexLoop, applyEntry, labelField_ne_idField]
    · simp [dataToVertexLoop, applyEntry, h1, h2]

theorem loop_cons_bad (w : Nat) (kv : Value × Value) (rest : List (Value × Value))
    (vertex : Vertex) (h : entryOk kv = false) :
    dataToVertexLoop w (kv :: rest) vertex = .error (entryError kv) := by
  obtain ⟨k, v⟩ := kv
  cases k <;> simp [entryOk] at h <;> try (simp [dataToVertexLoop, entryError])
  rename_i key
  by_cases h1 : key = idField
  · cases v <;> simp [h1] at h <;> simp [dataToVertexLoop, entryError, h1]
  · by_cases h2 : key = labelField
    · subst h2
      cases v <;> simp [labelField_ne_idField] at h <;>
        simp [dataToVertexLoop, entryError, labelField_ne_idField]
    · simp [h1, h2] at h

theorem loop_all_ok (w : Nat) (l : List (Value × Value)) (vertex : Vertex)
    (h : ∀ kv ∈ l, entryOk kv = true) :
    dataToVertexLoop w l vertex = .ok (l.foldl (applyEntry w) vertex) := by
  induction l generalizing vertex with
  | nil => simp [dataToVertexLoop]
  | cons kv rest ih =>
    rw [loop_cons_ok w kv rest vertex (h kv (List.mem_cons_self _ _)), List.foldl_cons]
    exact ih _ (fun x hx => h x (List.mem_cons_of_mem _ hx))

theorem loop_first_bad (w : Nat) (pre post : List (Value × Value)) (kv : Value × Value)
    (vertex : Vertex) (hpre : ∀ x ∈ pre, entryOk x = true) (hbad : entryOk kv = false) :
    dataToVertexLoop w (pre ++ kv :: post) vertex = .error (entryError kv) := by
  induction pre generalizing vertex with
  | nil => simpa using loop_cons_bad w kv post vertex hbad
  | cons x rest ih =>
    rw [List.cons_append, loop_cons_ok w x _ vertex (hpre x (List.mem_cons_self _ _))]
    exact ih _ (fun y hy => hpre y (List.mem_cons_of_mem _ hy))

theorem loop_some_bad (w : Nat) (l : List (Value × Value)) (vertex : Vertex)
    (h : ∃ kv ∈ l, entryOk kv = false) :
    ∃ e, dataToVertexLoop w l vertex = .error e := by
  induction l generalizing vertex with
  | nil => simp at h
  | cons x rest ih =>
    cases hx : entryOk x with
    | false => exact ⟨_, loop_cons_bad w x rest vertex hx⟩
    | true =>
      rw [loop_cons_ok w x rest vertex hx]
      obtain ⟨kv, hmem, hkv⟩ := h
      rcases List.mem_cons.mp hmem with rfl | hin
      · rw [hx] at hkv; cases hkv
      · exact ih _ ⟨kv, hin, hkv⟩

theorem first_bad_entry (l : List (Value × Value))
    (h : ∃ kv ∈ l, entryOk kv = false) :
    ∃ pre kv post, l = pre ++ kv :: post ∧ (∀ x ∈ pre, entryOk x = true) ∧
      entryOk kv = false := by
  induction l with
  | nil => simp at h
  | cons x rest ih =>
    cases hx : entryOk x with
    | false => exact ⟨[], x, rest, rfl, by simp, hx⟩
    | true =>
      obtain ⟨kv, hmem, hkv⟩ := h
      rcases List.mem_cons.mp hmem with rfl | hin
      · rw [hx] at hkv; cases hkv
      · obtain ⟨pre, bad, post, hl, hpre, hbad⟩ := ih ⟨kv, hin, hkv⟩
        refine ⟨x :: pre, bad, post, by rw [hl]; rfl, ?_, hbad⟩
        intro y hy
        rcases List.mem_cons.mp hy with rfl | hy2
        · exact hx
        · exact hpre y hy2

theorem entryOk_iff (kv : Value × Value) :
    entryOk kv = true ↔
      ((∃ s, kv.1 = .str s) ∧
       (kv.1 = .str idField →
          (∃ n, kv.2 = .int64 n) ∨ (∃ n, kv.2 = .int n) ∨ (∃ s, kv.2 = .str s)) ∧
       (kv.1 = .str labelField → ∃ s, kv.2 = .str s)) := by
  obtain ⟨k, v⟩ := kv
  cases k
  case str key =>
    by_cases h1 : key = idField
    · subst h1
      cases v <;> simp [entryOk, Ne.symm labelField_ne_idField]
    · by_cases h2 : key = labelField
      · subst h2
        cases v <;> simp [entryOk, labelField_ne_idField]
      · simp [entryOk, h1, h2]
  all_goals simp [entryOk]

theorem entryOk_false_iff (kv : Value × Value) :
    entryOk kv = false ↔
      ((∀ s, kv.1 ≠ .str s) ∨
       (kv.1 = .str idField ∧
          (∀ n, kv.2 ≠ .int64 n) ∧ (∀ n, kv.2 ≠ .int n) ∧ (∀ s, kv.2 ≠ .str s)) ∨
       (kv.1 = .str labelField ∧ ∀ s, kv.2 ≠ .str s)) := by
  obtain ⟨k, v⟩ := kv
  cases k
  case str key =>
    by_cases h1 : key = idField
    · subst h1
      cases v <;> simp [entryOk, Ne.symm labelField_ne_idField]
    · by_cases h2 : key = labelField
      · subst h2
        cases v <;> simp [entryOk, labelField_ne_idField]
      · simp [entryOk, h1, h2]
  all_goals simp [entryOk]

theorem entryError_of_nonstring (kv : Value × Value) (h : ∀ s, kv.1 ≠ .str s) :
    entryOk kv = false ∧ entryError kv = .errKeyToStringConversion := by
  obtain ⟨k, v⟩ := kv
  cases k
  case str key => exact absurd rfl (h key)
  all_goals simp [entryOk, entryError]

theorem set_comm (m : PropertyMap) (a b : String) (x y : Value) (hab : a ≠ b) :
    (m.set a x).set b y = (m.set b y).set a x := by
  funext k
  simp only [PropertyMap.set]
  by_cases hb : k = b
  · by_cases ha : k = a
    · exact absurd (ha.symm.trans hb) hab
    · simp [hb, Ne.symm hab]
  · simp [hb]

theorem applyEntry_comm (w : Nat) (z : Vertex) (x y : Value × Value) (hxy : x.1 ≠ y.1) :
    applyEntry w (applyEntry w z x) y = applyEntry w (applyEntry w z y) x := by
  obtain ⟨kx, vx⟩ := x
  obtain ⟨ky, vy⟩ := y
  cases kx
  case str a =>
    cases ky
    case str b =>
      have hab : a ≠ b := fun h => hxy (by simp [h])
      by_cases ha1 : a = idField
      · subst ha1
        have hb1 : b ≠ idField := fun h => hab h.symm
        by_cases hb2 : b = labelField
        · subst hb2
          cases vx <;> cases vy <;> simp [applyEntry, labelField_ne_idField]
        · cases vx <;> simp [applyEntry, hb1, hb2]
      · by_cases ha2 : a = labelField
        · subst ha2
          by_cases hb1 : b = idField
          · subst hb1
            cases vx <;> cases vy <;> simp [applyEntry, labelField_ne_idField]
          · have hb2 : b ≠ labelField := fun h => hab h.symm
            cases vx <;> simp [applyEntry, hb1, hb2, labelField_ne_idField]
        · by_cases hb1 : b = idField
          · subst hb1
            cases vy <;> simp [applyEntry, ha1, ha2]
          · by_cases hb2 : b = labelField
            · subst hb2
              cases vy <;> simp [applyEntry, ha1, ha2, labelField_ne_idField]
            · simp [applyEntry, ha1, ha2, hb1, hb2, set_comm _ a b vx vy hab]
    all_goals simp [applyEntry]
  all_goals simp [applyEntry]

theorem foldl_applyEntry_perm (w : Nat) (l₁ l₂ : List (Value × Value)) (vertex : Vertex)
    (hperm : l₁.Perm l₂) (hnodup : (l₁.map Prod.fst).Nodup) :
    l₁.foldl (applyEntry w) vertex = l₂.foldl (applyEntry w) vertex := by
  apply List.Perm.foldl_eq' hperm
  intro x hx y hy z
  by_cases hxy : x.1 = y.1
  · have := List.inj_on_of_nodup_map hnodup hx hy hxy
    subst this
    rfl
  · exact applyEntry_comm w z x y hxy

theorem applyEntry_Id (w : Nat) (v : Vertex) (x : Value × Value) (h : x.1 ≠ .str idField) :
    (applyEntry w v x).Id = v.Id := by
  obtain ⟨k, val⟩ := x
  cases k
  case str key =>
    have h1 : key ≠ idField := fun e => h (by simp [e])
    by_cases h2 : key = labelField
    · subst h2
      cases val <;> simp [applyEntry, labelField_ne_idField]
    · simp [applyEntry, h1, h2]
  all_goals simp [applyEntry]

theorem applyEntry_Label (w : Nat) (v : Vertex) (x : Value × Value)
    (h : x.1 ≠ .str labelField) : (applyEntry w v x).Label = v.Label := by
  obtain ⟨k, val⟩ := x
  cases k
  case str key =>
    have h2 : key ≠ labelField := fun e => h (by simp [e])
    by_cases h1 : key = idField
    · subst h1
      cases val <;> simp [applyEntry]
    · simp [applyEntry, h1, h2]
  all_goals simp [applyEntry]

theorem applyEntry_Properties (w : Nat) (v : Vertex) (x : Value × Value) (k : String)
    (h : x.1 ≠ .str k ∨ k = idField ∨ k = labelField) :
    (applyEntry w v x).Properties k = v.Properties k := by
  obtain ⟨kx, val⟩ := x
  cases kx
  case str key =>
    by_cases h1 : key = idField
    · subst h1
      cases val <;> simp [applyEntry]
    · by_cases h2 : key = labelField
      · subst h2
        cases val <;> simp [applyEntry, labelField_ne_idField]
      · have hk : k ≠ key := by
          rcases h with h | h | h
          · exact fun e => h (by simp [e])
          · exact fun e => h1 (e.symm.trans h)
          · exact fun e => h2 (e.symm.trans h)
        simp [applyEntry, h1, h2, PropertyMap.set, hk]
  all_goals simp [applyEntry]

theorem foldl_Id (w : Nat) (l : List (Value × Value)) (v : Vertex)
    (h : ∀ x ∈ l, x.1 ≠ .str idField) : (l.foldl (applyEntry w) v).Id = v.Id := by
  induction l generalizing v with
  | nil => rfl
  | cons x rest ih =>
    rw [List.foldl_cons, ih _ (fun y hy => h y (List.mem_cons_of_mem _ hy)),
      applyEntry_Id w v x (h x (List.mem_cons_self _ _))]

theorem foldl_Label (w : Nat) (l : List (Value × Value)) (v : Vertex)
    (h : ∀ x ∈ l, x.1 ≠ .str labelField) : (l.foldl (applyEntry w) v).Label = v.Label := by
  induction l generalizing v with
  | nil => rfl
  | cons x rest ih =>
    rw [List.foldl_cons, ih _ (fun y hy => h y (List.mem_cons_of_mem _ hy)),
      applyEntry_Label w v x (h x (List.mem_cons_self _ _))]

theorem foldl_Properties (w : Nat) (l : List (Value × Value)) (v : Vertex) (k : String)
    (h : ∀ x ∈ l, x.1 ≠ .str k ∨ k = idField ∨ k = labelField) :
    (l.foldl (applyEntry w) v).Properties k = v.Properties k := by
  induction l generalizing v with
  | nil => rfl
  | cons x rest ih =>
    rw [List.foldl_cons, ih _ (fun y hy => h y (List.mem_cons_of_mem _ hy)),
      applyEntry_Properties w v x k (h x (List.mem_cons_self _ _))]

/-- With pairwise distinct keys, any entry can be taken to be the first one
visited: the others, none of which has its key, follow. -/
theorem foldl_entry_first (w : Nat) (l : List (Value × Value)) (v : Vertex)
    (kv : Value × Value) (hnodup : (l.map Prod.fst).Nodup) (hmem : kv ∈ l) :
    ∃ rest : List (Value × Value),
      l.foldl (applyEntry w) v = rest.foldl (applyEntry w) (applyEntry w v kv) ∧
      (∀ x ∈ rest, x.1 ≠ kv.1) ∧ (∀ x ∈ rest, x ∈ l) := by
  obtain ⟨s, t, rfl⟩ := List.append_of_mem hmem
  have hp : (s ++ kv :: t).Perm (kv :: (s ++ t)) := List.perm_middle
  refine ⟨s ++ t, ?_, ?_, ?_⟩
  · rw [foldl_applyEntry_perm w _ _ v hp hnodup]
    rfl
  · have hn : ((kv :: (s ++ t)).map Prod.fst).Nodup :=
      (List.Perm.nodup_iff (hp.map Prod.fst)).mp hnodup
    intro x hx hxk
    rw [List.map_cons, List.nodup_cons] at hn
    exact hn.1 (hxk ▸ List.mem_map_of_mem Prod.fst hx)
  · intro x hx
    rcases List.mem_append.mp hx with h | h
    · exact List.mem_append_left _ h
    · exact List.mem_append_right _ (List.mem_cons_of_mem _ h)

theorem foldl_Label_mem (w : Nat) (l : List (Value × Value)) (v : Vertex) (lab : String)
    (hnodup : (l.map Prod.fst).Nodup) (hmem : (Value.str labelField, Value.str lab) ∈ l) :
    (l.foldl (applyEntry w) v).Label = lab := by
  obtain ⟨rest, heq, hkeys, -⟩ := foldl_entry_first w l v _ hnodup hmem
  rw [heq, foldl_Label w rest _ hkeys]
  simp [applyEntry, labelField_ne_idField]

theorem foldl_Properties_mem (w : Nat) (l : List (Value × Value)) (v : Vertex) (k : String)
    (y : Value) (hnodup : (l.map Prod.fst).Nodup) (hmem : (Value.str k, y) ∈ l)
    (h1 : k ≠ idField) (h2 : k ≠ labelField) :
    (l.foldl (applyEntry w) v).Properties k = some y := by
  obtain ⟨rest, heq, hkeys, -⟩ := foldl_entry_first w l v _ hnodup hmem
  rw [heq, foldl_Properties w rest _ k (fun x hx => Or.inl (hkeys x hx))]
  simp [applyEntry, h1, h2, PropertyMap.set]

theorem foldl_Properties_iff (w : Nat) (l : List (Value × Value)) (v : Vertex)
    (hnodup : (l.map Prod.fst).Nodup) (hv : ∀ k, v.Properties k = none) (k : String)
    (x : Value) :
    (l.foldl (applyEntry w) v).Properties k = some x ↔
      (k ≠ idField ∧ k ≠ labelField ∧ (Value.str k, x) ∈ l) := by
  constructor
  · intro h
    by_cases hres : k = idField ∨ k = labelField
    · rw [foldl_Properties w l v k (fun _ _ => Or.inr hres), hv k] at h
      cases h
    · have h1 : k ≠ idField := fun e => hres (Or.inl e)
      have h2 : k ≠ labelField := fun e => hres (Or.inr e)
      by_cases hex : ∃ kv ∈ l, kv.1 = Value.str k
      · obtain ⟨⟨k0, y⟩, hmem, hk⟩ := hex
        simp only at hk
        subst hk
        rw [foldl_Properties_mem w l v k y hnodup hmem h1 h2] at h
        cases h
        exact ⟨h1, h2, hmem⟩
      · rw [foldl_Properties w l v k (fun kv hkv => Or.inl (fun e => hex ⟨kv, hkv, e⟩)),
          hv k] at h
        cases h
  · rintro ⟨h1, h2, hmem⟩
    exact foldl_Properties_mem w l v k x hnodup hmem h1 h2

theorem wrapInt_of_inRange (w : Nat) (n : Int) (hw : 0 < w) (hn : inRange w n) :
    wrapInt w n = n := by
  obtain ⟨m, rfl⟩ : ∃ m, w = m + 1 := ⟨w - 1, by omega⟩
  unfold inRange at hn
  unfold wrapInt
  simp only [Nat.add_sub_cancel] at hn ⊢
  have hpos : (0 : Int) < 2 ^ m := by positivity
  have h2 : (2 : Int) ^ (m + 1) = 2 * 2 ^ m := by rw [pow_succ]; ring
  rw [h2, Int.emod_eq_of_lt (by omega) (by omega)]
  omega

/-- Decomposition used for a record that holds one "id" entry among entries
with other, pairwise distinct, string keys and a string label. -/
theorem dataToVertex_id_entry (w : Nat) (l₁ l₂ : List (Value × Value)) (lab : String)
    (idv : Value) (hid : entryOk (Value.str idField, idv) = true)
    (hkeys : ∀ kv ∈ l₁ ++ l₂, ∃ s, kv.1 = Value.str s ∧ s ≠ idField)
    (hnodup : ((l₁ ++ l₂).map Prod.fst).Nodup)
    (hlab : (Value.str labelField, Value.str lab) ∈ l₁ ++ l₂) :
    dataToVertex w (.map (l₁ ++ (Value.str idField, idv) :: l₂))
      = .ok ((l₁ ++ l₂).foldl (applyEntry w)
          (applyEntry w { Id := "", Label := "", Properties := PropertyMap.empty }
            (Value.str idField, idv))) := by
  have hp : (l₁ ++ (Value.str idField, idv) :: l₂).Perm
      ((Value.str idField, idv) :: (l₁ ++ l₂)) := List.perm_middle
  have hnd : (((Value.str idField, idv) :: (l₁ ++ l₂)).map Prod.fst).Nodup := by
    rw [List.map_cons, List.nodup_cons]
    refine ⟨?_, hnodup⟩
    intro hmem
    obtain ⟨kv, hkv, hk⟩ := List.mem_map.mp hmem
    obtain ⟨s, hs, hne⟩ := hkeys kv hkv
    rw [hs] at hk
    exact hne (by simpa using hk)
  have hnd2 : ((l₁ ++ (Value.str idField, idv) :: l₂).map Prod.fst).Nodup :=
    (List.Perm.nodup_iff (hp.map Prod.fst)).mpr hnd
  have hok : ∀ kv ∈ l₁ ++ (Value.str idField, idv) :: l₂, entryOk kv = true := by
    intro kv hkv
    rcases List.mem_cons.mp (hp.subset hkv) with rfl | hin
    · exact hid
    · obtain ⟨s, hs, hne⟩ := hkeys kv hin
      rw [entryOk_iff]
      refine ⟨⟨s, hs⟩, ?_, ?_⟩
      · intro h
        rw [hs] at h
        exact absurd (by simpa using h) hne
      · intro h
        have := List.inj_on_of_nodup_map hnodup hin hlab h
        exact ⟨lab, by rw [this]⟩
  unfold dataToVertex
  simp only
  rw [loop_all_ok w _ _ hok, foldl_applyEntry_perm w _ _ _ hp hnd2]
  rfl

/-! ## Theorems: the traversal builder -/

theorem foldl_add_steps {α : Type} (f : α → Step) (edgeLabels : List α) (v : GraphTraversal) :
    edgeLabels.foldl (fun v e => v.add (f e)) v
      = { source := v.source, steps := v.steps ++ edgeLabels.map f } := by
  induction edgeLabels generalizing v with
  | nil => simp
  | cons e rest ih =>
    rw [List.foldl_cons, ih]
    simp [GraphTraversal.add]

/-- C3: for a non-empty list of edge labels and each of the directions OUT,
IN and BOTH, `setTraversalPath` succeeds and returns the starting traversal
(same source, same earlier steps) followed by one hop per edge label, in list
order: `Out` hops for OUT, `In` hops for IN, `Both` hops for BOTH. -/
theorem setTraversalPath_hops (v : GraphTraversal) (edgeLabels : List String)
    (hne : edgeLabels ≠ []) :
    setTraversalPath v TraversalDirectionOut edgeLabels
        = .ok { source := v.source, steps := v.steps ++ edgeLabels.map Step.Out } ∧
    setTraversalPath v TraversalDirectionIn edgeLabels
        = .ok { source := v.source, steps := v.steps ++ edgeLabels.map Step.In } ∧
    setTraversalPath v TraversalDirectionBoth edgeLabels
        = .ok { source := v.source, steps := v.steps ++ edgeLabels.map Step.Both } := by
  have hlen : edgeLabels.length ≠ 0 := by
    intro h; exact hne (List.length_eq_zero.mp h)
  refine ⟨?_, ?_, ?_⟩
  · simp [setTraversalPath, hlen, foldl_add_steps]
  · have h1 : TraversalDirectionIn ≠ TraversalDirectionOut := by decide
    simp [setTraversalPath, hlen, foldl_add_steps, h1]
  · have h1 : TraversalDirectionBoth ≠ TraversalDirectionOut := by decide
    have h2 : TraversalDirectionBoth ≠ TraversalDirectionIn := by decide
    simp [setTraversalPath, hlen, foldl_add_steps, h1, h2]

theorem setTraversalPath_hops_witness :
    setTraversalPath ⟨.reader, [.V, .HasLabel "Person"]⟩ TraversalDirectionOut ["knows", "owns"]
        = .ok ⟨.reader, [.V, .HasLabel "Person", .Out "knows", .Out "owns"]⟩ ∧
    setTraversalPath ⟨.reader, [.V, .HasLabel "Person"]⟩ TraversalDirectionIn ["knows", "owns"]
        = .ok ⟨.reader, [.V, .HasLabel "Person", .In "knows", .In "owns"]⟩ ∧
    setTraversalPath ⟨.reader, [.V, .HasLabel "Person"]⟩ TraversalDirectionBoth ["knows", "owns"]
        = .ok ⟨.reader, [.V, .HasLabel "Person", .Both "knows", .Both "owns"]⟩ :=
  setTraversalPath_hops ⟨.reader, [.V, .HasLabel "Person"]⟩ ["knows", "owns"] (by simp)

/-- C4, as stated, fails: with the unrecognised direction SIDEWAYS and an
empty list of edge labels the error is `errNoEdgeLabels`, not
`errInvalidTraversalDirection`. -/
theorem setTraversalPath_invalid_direction_empty_labels :
    ("SIDEWAYS" : TraversalDirection) ≠ TraversalDirectionOut ∧
    ("SIDEWAYS" : TraversalDirection) ≠ TraversalDirectionIn ∧
    ("SIDEWAYS" : TraversalDirection) ≠ TraversalDirectionBoth ∧
    setTraversalPath ⟨.reader, []⟩ "SIDEWAYS" [] = .error .errNoEdgeLabels ∧
    setTraversalPath ⟨.reader, []⟩ "SIDEWAYS" [] ≠ .error .errInvalidTraversalDirection := by
  refine ⟨by decide, by decide, by decide, ?_, ?_⟩ <;> simp [setTraversalPath]

/-- C4, amended: for a direction that is none of OUT, IN, BOTH,
`setTraversalPath` fails with `errInvalidTraversalDirection` when the list of
edge labels is non-empty, and with `errNoEdgeLabels` when it is empty. -/
theorem setTraversalPath_invalid_direction (v : GraphTraversal)
    (direction : TraversalDirection) (edgeLabels : List String)
    (hout : direction ≠ TraversalDirectionOut) (hin : direction ≠ TraversalDirectionIn)
    (hboth : direction ≠ TraversalDirectionBoth) :
    (edgeLabels ≠ [] →
      setTraversalPath v direction edgeLabels = .error .errInvalidTraversalDirection) ∧
    (edgeLabels = [] → setTraversalPath v direction edgeLabels = .error .errNoEdgeLabels) := by
  constructor
  · intro hne
    have hlen : edgeLabels.length ≠ 0 := by
      intro h; exact hne (List.length_eq_zero.mp h)
    simp [setTraversalPath, hlen, hout, hin, hboth]
  · intro he
    simp [setTraversalPath, he]

theorem setTraversalPath_invalid_direction_witness :
    (["knows"] ≠ [] →
      setTraversalPath ⟨.reader, [.V]⟩ "SIDEWAYS" ["knows"]
        = .error .errInvalidTraversalDirection) ∧
    (["knows"] = [] →
      setTraversalPath ⟨.reader, [.V]⟩ "SIDEWAYS" ["knows"] = .error .errNoEdgeLabels) :=
  setTraversalPath_invalid_direction ⟨.reader, [.V]⟩ "SIDEWAYS" ["knows"]
    (by decide) (by decide) (by decide)

/-! ## Theorems: typed property extraction -/

/-- C7: `ConvertVertexProperty` succeeds exactly when the label matches, the
key is present and the stored value passes the type assertion for `T` (its
dynamic type is `T`, or `T` is `any` and the value is not nil), and then it
returns the stored value; a wrong label gives the label error whatever the
key and type, and a right label with an absent key gives the
missing-property error; a present value of another type gives the type error. -/
theorem ConvertVertexProperty_contract (T : GoType) (v : Vertex) (label key : String) :
    (∀ x, ConvertVertexProperty T v label key = .ok x ↔
      (v.Label = label ∧ v.Properties key = some x ∧
        (x.typeOf = some T ∨ (T = GoType.any ∧ x ≠ Value.nil)))) ∧
    (v.Label ≠ label →
      ConvertVertexProperty T v label key = .error (.expectedLabel label v.Label)) ∧
    (v.Label = label → v.Properties key = none →
      ConvertVertexProperty T v label key = .error (.expectedProperty key)) ∧
    (v.Label = label → ∀ p, v.Properties key = some p →
      ¬ (p.typeOf = some T ∨ (T = GoType.any ∧ p ≠ Value.nil)) →
      ConvertVertexProperty T v label key = .error (.expectedPropertyType key T p)) := by
  have hassert : ∀ p : Value, (typeAssert T p = some p ↔
      (p.typeOf = some T ∨ (T = GoType.any ∧ p ≠ Value.nil))) ∧
      (typeAssert T p = none ∨ typeAssert T p = some p) := by
    intro p
    cases p <;> cases T <;> simp [typeAssert, Value.typeOf]
  refine ⟨?_, ?_, ?_, ?_⟩
  · intro x
    unfold ConvertVertexProperty
    by_cases hl : v.Label = label
    · cases hp : v.Properties key with
      | none => simp [hl]
      | some p =>
        rcases (hassert p).2 with h | h
        · have hn := (hassert p).1
          rw [h] at hn
          simp only [hl, ne_eq, not_true_eq_false, if_false, h]
          constructor
          · intro hc; cases hc
          · rintro ⟨-, hpx, hx⟩
            cases hpx
            exact absurd (hn.mpr hx) (by simp)
        · have hn := (hassert p).1
          simp only [hl, ne_eq, not_true_eq_false, if_false, h]
          constructor
          · intro hc
            cases hc
            exact ⟨trivial, rfl, hn.mp h⟩
          · rintro ⟨-, hpx, -⟩
            cases hpx
            rfl
    · simp [hl]
  · intro hl
    simp [ConvertVertexProperty, hl]
  · intro hl hp
    simp [ConvertVertexProperty, hl, hp]
  · intro hl p hp hT
    have h : typeAssert T p = none := by
      rcases (hassert p).2 with h | h
      · exact h
      · exact absurd ((hassert p).1.mp h) hT
    simp [ConvertVertexProperty, hl, hp, h]

/-! ## Theorems: the result normaliser -/

/-- C5, as stated, fails where `int` is 32 bits wide: for n = 4294967297 the
record with the `int64` n under "id" is normalised to the `Id` "1"
(`int(idInt64)` keeps the low 32 bits), the record with the decimal string of
n to the `Id` "4294967297", so the two vertices differ and the first `Id` is
not the decimal string of n. -/
theorem dataToVertex_int64_id_beyond_native_int :
    dataToVertex 32 (.map [(Value.str "id", Value.int64 4294967297),
        (Value.str "label", Value.str "Person")])
      = .ok { Id := "1", Label := "Person", Properties := PropertyMap.empty } ∧
    dataToVertex 32 (.map [(Value.str "id", Value.str (itoa 4294967297)),
        (Value.str "label", Value.str "Person")])
      = .ok { Id := "4294967297", Label := "Person", Properties := PropertyMap.empty } ∧
    itoa 4294967297 = "4294967297" ∧
    ("1" : String) ≠ "4294967297" := by
  refine ⟨?_, ?_, ?_, ?_⟩
  · rfl
  · rfl
  · rfl
  · decide

/-- C5, amended: for every integer `n` and a record whose keys are pairwise
distinct strings, with a string under "label" and an "id" entry visited at any
position, `dataToVertex` succeeds with one and the same vertex when the id is
the decimal string of `n`, when it is the `int` `n`, and, provided `n` fits
the native `int`, when it is the `int64` `n`: its `Id` is the decimal string of
`n`, its `Label` the value under "label", and its `Properties` hold exactly the
entries other than "id" and "label", with their values. -/
theorem dataToVertex_id_forms (w : Nat) (n : Int) (l₁ l₂ : List (Value × Value))
    (lab : String) (hw : 0 < w)
    (hkeys : ∀ kv ∈ l₁ ++ l₂, ∃ s, kv.1 = Value.str s ∧ s ≠ idField)
    (hnodup : ((l₁ ++ l₂).map Prod.fst).Nodup)
    (hlab : (Value.str labelField, Value.str lab) ∈ l₁ ++ l₂) :
    ∃ vertex : Vertex,
      vertex.Id = itoa n ∧ vertex.Label = lab ∧
      (∀ k x, vertex.Properties k = some x ↔
        (k ≠ idField ∧ k ≠ labelField ∧ (Value.str k, x) ∈ l₁ ++ l₂)) ∧
      dataToVertex w (.map (l₁ ++ (Value.str idField, Value.str (itoa n)) :: l₂))
        = .ok vertex ∧
      dataToVertex w (.map (l₁ ++ (Value.str idField, Value.int n) :: l₂)) = .ok vertex ∧
      (inRange w n →
        dataToVertex w (.map (l₁ ++ (Value.str idField, Value.int64 n) :: l₂))
          = .ok vertex) := by
  have hnoid : ∀ kv ∈ l₁ ++ l₂, kv.1 ≠ Value.str idField := by
    intro kv hkv h
    obtain ⟨s, hs, hne⟩ := hkeys kv hkv
    rw [hs] at h
    exact hne (by simpa using h)
  refine ⟨(l₁ ++ l₂).foldl (applyEntry w)
    { Id := itoa n, Label := "", Properties := PropertyMap.empty }, ?_, ?_, ?_, ?_, ?_, ?_⟩
  · rw [foldl_Id w _ _ hnoid]
  · exact foldl_Label_mem w _ _ lab hnodup hlab
  · intro k x
    exact foldl_Properties_iff w _ _ hnodup (fun _ => rfl) k x
  · rw [dataToVertex_id_entry w l₁ l₂ lab _ (by simp [entryOk]) hkeys hnodup hlab]
    simp [applyEntry]
  · rw [dataToVertex_id_entry w l₁ l₂ lab _ (by simp [entryOk]) hkeys hnodup hlab]
    simp [applyEntry]
  · intro hn
    rw [dataToVertex_id_entry w l₁ l₂ lab _ (by simp [entryOk]) hkeys hnodup hlab]
    simp [applyEntry, wrapInt_of_inRange w n hw hn]

theorem dataToVertex_id_forms_witness :
    ∃ vertex : Vertex,
      vertex.Id = "42" ∧ vertex.Label = "Person" ∧
      (∀ k x, vertex.Properties k = some x ↔
        (k ≠ idField ∧ k ≠ labelField ∧
          (Value.str k, x) ∈
            [] ++ [(Value.str "label", Value.str "Person"),
                   (Value.str "name", Value.str "Ada")])) ∧
      dataToVertex 64 (.map ([] ++ (Value.str idField, Value.str "42") ::
        [(Value.str "label", Value.str "Person"), (Value.str "name", Value.str "Ada")]))
        = .ok vertex ∧
      dataToVertex 64 (.map ([] ++ (Value.str idField, Value.int 42) ::
        [(Value.str "label", Value.str "Person"), (Value.str "name", Value.str "Ada")]))
        = .ok vertex ∧
      dataToVertex 64 (.map ([] ++ (Value.str idField, Value.int64 42) ::
        [(Value.str "label", Value.str "Person"), (Value.str "name", Value.str "Ada")]))
        = .ok vertex := by
  obtain ⟨vertex, hid, hlabel, hprops, hstr, hint, hint64⟩ :=
    dataToVertex_id_forms 64 42 []
      [(Value.str "label", Value.str "Person"), (Value.str "name", Value.str "Ada")] "Person"
      (by decide)
      (by
        intro kv hkv
        simp only [List.nil_append, List.mem_cons, List.mem_singleton, List.not_mem_nil,
          or_false] at hkv
        rcases hkv with rfl | rfl
        · exact ⟨"label", rfl, by decide⟩
        · exact ⟨"name", rfl, by decide⟩)
      (by decide) (by simp [labelField])
  have h42 : itoa 42 = "42" := rfl
  rw [h42] at hid hstr
  exact ⟨vertex, hid, hlabel, hprops, hstr, hint, hint64 (by unfold inRange; norm_num)⟩

/-- The decimal rendering on a few values, negative ones included. -/
theorem itoa_values :
    itoa 0 = "0" ∧ itoa 7 = "7" ∧ itoa 42 = "42" ∧ itoa (-1) = "-1" ∧
    itoa (-2147483648) = "-2147483648" ∧ itoa 9223372036854775807 = "9223372036854775807" := by
  refine ⟨?_, ?_, ?_, ?_, ?_, ?_⟩ <;> rfl

/-- The example of the specification, evaluated: the record
`{id: 42 (int64), label: "Person", name: "Ada"}` is normalised to the vertex
with `Id` "42", `Label` "Person" and the single property `name` = "Ada". -/
theorem dataToVertex_example :
    dataToVertex 64 (.map [(Value.str "id", Value.int64 42),
        (Value.str "label", Value.str "Person"), (Value.str "name", Value.str "Ada")])
      = .ok { Id := "42", Label := "Person",
              Properties := PropertyMap.empty.set "name" (Value.str "Ada") } := by
  simp [dataToVertex, dataToVertexLoop, idField, labelField, wrapInt, itoa]
  rfl

/-- C6, as stated, fails: in the map `{"label": 5, 7: "x"}` the key 7 is not a
string, yet when the entry under "label" is visited first the error is
`errValueToStringConversion`; only in the other visiting order is it
`errKeyToStringConversion`. -/
theorem dataToVertex_nonstring_key_other_error :
    dataToVertex 64 (.map [(Value.str "label", Value.int 5), (Value.int 7, Value.str "x")])
      = .error .errValueToStringConversion ∧
    dataToVertex 64 (.map [(Value.str "label", Value.int 5), (Value.int 7, Value.str "x")])
      ≠ .error .errKeyToStringConversion ∧
    dataToVertex 64 (.map [(Value.int 7, Value.str "x"), (Value.str "label", Value.int 5)])
      = .error .errKeyToStringConversion := by
  refine ⟨?_, ?_, ?_⟩ <;> simp [dataToVertex, dataToVertexLoop, idField, labelField]

/-- C6, amended: a map with a non-string key makes `dataToVertex` fail in
every visiting order, and the error is the one of the first entry visited
that the loop does not accept (such an entry exists): `errKeyToStringConversion`
if its key is not a string, the "unable to convert value" error carrying its
value if its key is "id" and the value is none of `int64`, `int`, string, and
`errValueToStringConversion` if its key is "label" and the value is not a
string.  So the error is `errKeyToStringConversion` exactly when no entry
visited before the first non-string key is a bad "id" or a bad "label". -/
theorem dataToVertex_nonstring_key (w : Nat) (l : List (Value × Value))
    (hk : ∃ kv ∈ l, ∀ s, kv.1 ≠ Value.str s) :
    (∃ e, dataToVertex w (.map l) = .error e) ∧
    (∃ pre k v post, l = pre ++ (k, v) :: post ∧
      (∀ kv ∈ pre, (∃ s, kv.1 = Value.str s) ∧
        (kv.1 = Value.str idField →
          (∃ n, kv.2 = Value.int64 n) ∨ (∃ n, kv.2 = Value.int n) ∨
            (∃ s, kv.2 = Value.str s)) ∧
        (kv.1 = Value.str labelField → ∃ s, kv.2 = Value.str s)) ∧
      ((∀ s, k ≠ Value.str s) ∨
       (k = Value.str idField ∧
          (∀ n, v ≠ Value.int64 n) ∧ (∀ n, v ≠ Value.int n) ∧ (∀ s, v ≠ Value.str s)) ∨
       (k = Value.str labelField ∧ ∀ s, v ≠ Value.str s))) ∧
    (∀ pre k v post, l = pre ++ (k, v) :: post →
      (∀ kv ∈ pre, (∃ s, kv.1 = Value.str s) ∧
        (kv.1 = Value.str idField →
          (∃ n, kv.2 = Value.int64 n) ∨ (∃ n, kv.2 = Value.int n) ∨
            (∃ s, kv.2 = Value.str s)) ∧
        (kv.1 = Value.str labelField → ∃ s, kv.2 = Value.str s)) →
      ((∀ s, k ≠ Value.str s) →
        dataToVertex w (.map l) = .error .errKeyToStringConversion) ∧
      (k = Value.str idField →
        (∀ n, v ≠ Value.int64 n) → (∀ n, v ≠ Value.int n) → (∀ s, v ≠ Value.str s) →
        dataToVertex w (.map l) = .error (.unableToConvertValue v)) ∧
      (k = Value.str labelField → (∀ s, v ≠ Value.str s) →
        dataToVertex w (.map l) = .error .errValueToStringConversion)) := by
  have hbadex : ∃ kv ∈ l, entryOk kv = false := by
    obtain ⟨kv, hmem, hkv⟩ := hk
    exact ⟨kv, hmem, (entryError_of_nonstring kv hkv).1⟩
  refine ⟨loop_some_bad w l _ hbadex, ?_, ?_⟩
  · obtain ⟨pre, kv, post, hl, hpre, hbad⟩ := first_bad_entry l hbadex
    refine ⟨pre, kv.1, kv.2, post, hl, fun x hx => (entryOk_iff x).mp (hpre x hx), ?_⟩
    exact (entryOk_false_iff kv).mp hbad
  · intro pre k v post hl hpre
    have hpre2 : ∀ x ∈ pre, entryOk x = true := fun x hx => (entryOk_iff x).mpr (hpre x hx)
    subst hl
    refine ⟨?_, ?_, ?_⟩
    · intro hns
      have hb := entryError_of_nonstring (k, v) hns
      have h := loop_first_bad w pre post (k, v)
        { Id := "", Label := "", Properties := PropertyMap.empty } hpre2 hb.1
      rw [hb.2] at h
      exact h
    · intro hkid h1 h2 h3
      subst hkid
      have hb : entryOk (Value.str idField, v) = false :=
        (entryOk_false_iff _).mpr (Or.inr (Or.inl ⟨rfl, h1, h2, h3⟩))
      have h := loop_first_bad w pre post (Value.str idField, v)
        { Id := "", Label := "", Properties := PropertyMap.empty } hpre2 hb
      simpa [entryError] using h
    · intro hklab h1
      subst hklab
      have hb : entryOk (Value.str labelField, v) = false :=
        (entryOk_false_iff _).mpr (Or.inr (Or.inr ⟨rfl, h1⟩))
      have h := loop_first_bad w pre post (Value.str labelField, v)
        { Id := "", Label := "", Properties := PropertyMap.empty } hpre2 hb
      simpa [entryError, labelField_ne_idField] using h

theorem dataToVertex_nonstring_key_witness :
    (∃ e, dataToVertex 64 (.map [(Value.str "name", Value.str "Ada"),
        (Value.str "id", Value.bool true), (Value.int 7, Value.str "x")]) = .error e) ∧
    dataToVertex 64 (.map [(Value.str "name", Value.str "Ada"),
        (Value.str "id", Value.bool true), (Value.int 7, Value.str "x")])
      = .error (.unableToConvertValue (Value.bool true)) ∧
    dataToVertex 64 (.map [(Value.str "name", Value.str "Ada"),
        (Value.str "id", Value.bool true), (Value.int 7, Value.str "x")])
      ≠ .error .errKeyToStringConversion := by
  have h := dataToVertex_nonstring_key 64
    [(Value.str "name", Value.str "Ada"), (Value.str "id", Value.bool true),
      (Value.int 7, Value.str "x")]
    ⟨(Value.int 7, Value.str "x"), by simp, by simp⟩
  have h2 := (h.2.2 [(Value.str "name", Value.str "Ada")] (Value.str "id") (Value.bool true)
    [(Value.int 7, Value.str "x")] rfl
    (by
      intro kv hkv
      simp only [List.mem_singleton] at hkv
      subst hkv
      exact ⟨⟨"name", rfl⟩, by simp [idField], by simp [labelField]⟩)).2.1
    rfl (by simp) (by simp) (by simp)
  refine ⟨h.1, h2, ?_⟩
  rw [h2]
  simp

/-- C10: for a map (pairwise distinct keys) and any two visiting orders of its
entries, `dataToVertex` fails in both or succeeds in both with the same
vertex; and it fails exactly when some key is not a string, or the value
under "id" is none of `int64`, `int`, string, or the value under "label" is
not a string. -/
theorem dataToVertex_order_independent (w : Nat) (l₁ l₂ : List (Value × Value))
    (hperm : l₁.Perm l₂) (hnodup : (l₁.map Prod.fst).Nodup) :
    ((∃ e₁ e₂, dataToVertex w (.map l₁) = .error e₁ ∧ dataToVertex w (.map l₂) = .error e₂) ∨
     (∃ vertex, dataToVertex w (.map l₁) = .ok vertex ∧
        dataToVertex w (.map l₂) = .ok vertex)) ∧
    ((∃ e, dataToVertex w (.map l₁) = .error e) ↔
      ∃ kv ∈ l₁,
        (∀ s, kv.1 ≠ Value.str s) ∨
        (kv.1 = Value.str idField ∧
          (∀ n, kv.2 ≠ Value.int64 n) ∧ (∀ n, kv.2 ≠ Value.int n) ∧
            (∀ s, kv.2 ≠ Value.str s)) ∨
        (kv.1 = Value.str labelField ∧ ∀ s, kv.2 ≠ Value.str s)) := by
  by_cases hall : ∀ kv ∈ l₁, entryOk kv = true
  · have hall2 : ∀ kv ∈ l₂, entryOk kv = true := fun kv hkv => hall kv (hperm.symm.subset hkv)
    have h1 := loop_all_ok w l₁ { Id := "", Label := "", Properties := PropertyMap.empty } hall
    have h2 := loop_all_ok w l₂ { Id := "", Label := "", Properties := PropertyMap.empty } hall2
    rw [← foldl_applyEntry_perm w l₁ l₂ _ hperm hnodup] at h2
    constructor
    · exact Or.inr ⟨_, h1, h2⟩
    · constructor
      · rintro ⟨e, he⟩
        rw [dataToVertex, h1] at he
        cases he
      · rintro ⟨kv, hkv, hbad⟩
        have := (entryOk_false_iff kv).mpr hbad
        rw [hall kv hkv] at this
        cases this
  · have hex : ∃ kv ∈ l₁, entryOk kv = false := by
      by_contra hcon
      apply hall
      intro kv hkv
      cases hkv2 : entryOk kv with
      | true => rfl
      | false => exact absurd ⟨kv, hkv, hkv2⟩ hcon
    have hex2 : ∃ kv ∈ l₂, entryOk kv = false := by
      obtain ⟨kv, hkv, hb⟩ := hex
      exact ⟨kv, hperm.subset hkv, hb⟩
    obtain ⟨e₁, he₁⟩ := loop_some_bad w l₁
      { Id := "", Label := "", Properties := PropertyMap.empty } hex
    obtain ⟨e₂, he₂⟩ := loop_some_bad w l₂
      { Id := "", Label := "", Properties := PropertyMap.empty } hex2
    constructor
    · exact Or.inl ⟨e₁, e₂, he₁, he₂⟩
    · constructor
      · intro _
        obtain ⟨kv, hkv, hb⟩ := hex
        exact ⟨kv, hkv, (entryOk_false_iff kv).mp hb⟩
      · intro _
        exact ⟨e₁, he₁⟩

theorem dataToVertex_order_independent_witness :
    ((∃ e₁ e₂,
        dataToVertex 64 (.map [(Value.str "id", Value.int64 42),
          (Value.str "label", Value.str "Person"), (Value.str "name", Value.str "Ada")])
          = .error e₁ ∧
        dataToVertex 64 (.map [(Value.str "name", Value.str "Ada"),
          (Value.str "label", Value.str "Person"), (Value.str "id", Value.int64 42)])
          = .error e₂) ∨
     (∃ vertex,
        dataToVertex 64 (.map [(Value.str "id", Value.int64 42),
          (Value.str "label", Value.str "Person"), (Value.str "name", Value.str "Ada")])
          = .ok vertex ∧
        dataToVertex 64 (.map [(Value.str "name", Value.str "Ada"),
          (Value.str "label", Value.str "Person"), (Value.str "id", Value.int64 42)])
          = .ok vertex)) ∧
    ((∃ e, dataToVertex 64 (.map [(Value.str "id", Value.int64 42),
          (Value.str "label", Value.str "Person"), (Value.str "name", Value.str "Ada")])
          = .error e) ↔
      ∃ kv ∈ [(Value.str "id", Value.int64 42),
          (Value.str "label", Value.str "Person"), (Value.str "name", Value.str "Ada")],
        (∀ s, kv.1 ≠ Value.str s) ∨
        (kv.1 = Value.str idField ∧
          (∀ n, kv.2 ≠ Value.int64 n) ∧ (∀ n, kv.2 ≠ Value.int n) ∧
            (∀ s, kv.2 ≠ Value.str s)) ∨
        (kv.1 = Value.str labelField ∧ ∀ s, kv.2 ≠ Value.str s)) :=
  dataToVertex_order_independent 64
    [(Value.str "id", Value.int64 42), (Value.str "label", Value.str "Person"),
      (Value.str "name", Value.str "Ada")]
    [(Value.str "name", Value.str "Ada"), (Value.str "label", Value.str "Person"),
      (Value.str "id", Value.int64 42)]
    (by decide) (by decide)

/-! ## Theorems: the facade -/

theorem convertResults_ok_iff (w : Nat) (results : List Data) (acc vertices : List Vertex) :
    convertResults w results acc = .ok vertices ↔
      ∃ vs, List.Forall₂ (fun r vertex => dataToVertex w r = .ok vertex) results vs ∧
        vertices = acc ++ vs := by
  induction results generalizing acc with
  | nil =>
    simp only [convertResults, List.forall₂_nil_left_iff]
    constructor
    · intro h
      cases h
      exact ⟨[], rfl, by simp⟩
    · rintro ⟨vs, rfl, rfl⟩
      simp
  | cons r rest ih =>
    cases hr : dataToVertex w r with
    | error e =>
      simp only [convertResults, hr]
      constructor
      · intro h; cases h
      · rintro ⟨vs, hvs, -⟩
        cases hvs with
        | cons h _ => rw [hr] at h; cases h
    | ok vertex =>
      simp only [convertResults, hr]
      rw [ih]
      constructor
      · rintro ⟨vs, hvs, rfl⟩
        exact ⟨vertex :: vs, List.Forall₂.cons hr hvs, by simp⟩
      · rintro ⟨vs, hvs, rfl⟩
        cases hvs with
        | cons h htl =>
          rw [hr] at h
          cases h
          exact ⟨_, htl, by simp⟩

theorem convertResults_error (w : Nat) (results : List Data) (acc : List Vertex)
    (h : ∃ r ∈ results, ∃ e, dataToVertex w r = .error e) :
    ∃ e, convertResults w results acc = .error e := by
  induction results generalizing acc with
  | nil => simp at h
  | cons r rest ih =>
    cases hr : dataToVertex w r with
    | error e =>
      refine ⟨Error.wrap e "unable to convert data to vertex", ?_⟩
      simp [convertResults, hr]
    | ok vertex =>
      simp only [convertResults, hr]
      apply ih
      obtain ⟨r0, hmem, e, he⟩ := h
      rcases List.mem_cons.mp hmem with rfl | hin
      · rw [hr] at he; cases he
      · exact ⟨r0, hin, e, he⟩

theorem GetVertices_eq (w : Nat) (s : GraphService) (label : String)
    (property : List Property) (hlabel : label ≠ "") :
    GetVertices w s label property =
      (match s.reader.toList ([Step.V, Step.HasLabel label] ++
          property.map (fun p => Step.HasKV p.Key p.Value) ++ [Step.ElementMap]) with
        | .error err => .error (.wrap err "gremlin error getting vertices")
        | .ok results => convertResults w results [],
       [{ source := .reader,
          steps := [Step.V, Step.HasLabel label] ++
            property.map (fun p => Step.HasKV p.Key p.Value) ++ [Step.ElementMap] }]) := by
  simp only [GetVertices, hlabel, if_false,
    foldl_add_steps (fun p : Property => Step.HasKV p.Key p.Value)]
  simp only [returnResultsFromTraversal, GraphTraversal.add, GraphService.conn,
    List.nil_append, List.singleton_append, List.cons_append]
  cases s.reader.toList (Step.V :: Step.HasLabel label ::
    (List.map (fun p => Step.HasKV p.Key p.Value) property ++ [Step.ElementMap])) <;> rfl

/-- C9: for a non-empty label, when the driver returns the records `results`
for the query of `GetVertices`, the call returns the vertices `vertices`
exactly when `dataToVertex` maps the records, one by one and in order, to
`vertices`; so it succeeds exactly when every record normalises, a record
that fails makes the whole call fail, and no record gives the empty list. -/
theorem GetVertices_results (w : Nat) (s : GraphService) (label : String)
    (property : List Property) (results : List Data) (hlabel : label ≠ "")
    (hres : s.reader.toList ([Step.V, Step.HasLabel label] ++
        property.map (fun p => Step.HasKV p.Key p.Value) ++ [Step.ElementMap])
      = .ok results) :
    (∀ vertices, (GetVertices w s label property).1 = .ok vertices ↔
      List.Forall₂ (fun r vertex => dataToVertex w r = .ok vertex) results vertices) ∧
    ((∃ vertices, (GetVertices w s label property).1 = .ok vertices) ↔
      ∀ r ∈ results, ∃ vertex, dataToVertex w r = .ok vertex) ∧
    ((∃ r ∈ results, ∃ e, dataToVertex w r = .error e) →
      ∃ e, (GetVertices w s label property).1 = .error e) ∧
    (results = [] → (GetVertices w s label property).1 = .ok []) := by
  have heq : (GetVertices w s label property).1 = convertResults w results [] := by
    rw [GetVertices_eq w s label property hlabel, hres]
  have hiff : ∀ vertices, (GetVertices w s label property).1 = .ok vertices ↔
      List.Forall₂ (fun r vertex => dataToVertex w r = .ok vertex) results vertices := by
    intro vertices
    rw [heq, convertResults_ok_iff]
    simp
  refine ⟨hiff, ?_, ?_, ?_⟩
  · constructor
    · rintro ⟨vertices, hv⟩ r hr
      have h2 := (hiff vertices).mp hv
      clear hv heq hiff hres
      induction h2 with
      | nil => simp at hr
      | cons hx _ ih =>
        rcases List.mem_cons.mp hr with rfl | hin
        · exact ⟨_, hx⟩
        · exact ih hin
    · intro hall
      cases hc : (GetVertices w s label property).1 with
      | ok vs => exact ⟨vs, rfl⟩
      | error e =>
        exfalso
        rw [heq] at hc
        have : ∀ (rs : List Data) (acc : List Vertex),
            (∀ r ∈ rs, ∃ vertex, dataToVertex w r = .ok vertex) →
            ∃ vs, convertResults w rs acc = .ok vs := by
          intro rs
          induction rs with
          | nil => intro acc _; exact ⟨acc, rfl⟩
          | cons r rest ih =>
            intro acc h
            obtain ⟨vertex, hvertex⟩ := h r (List.mem_cons_self _ _)
            simp only [convertResults, hvertex]
            exact ih _ (fun x hx => h x (List.mem_cons_of_mem _ hx))
        obtain ⟨vs, hvs⟩ := this results [] hall
        rw [hvs] at hc
        cases hc
  · intro h
    rw [heq]
    exact convertResults_error w results [] h
  · intro h
    rw [heq, h]
    rfl

theorem GetVertices_results_witness :
    (∀ vertices, (GetVertices 64 (GraphService.onGraph sampleGraph) "Person" []).1
        = .ok vertices ↔
      List.Forall₂ (fun r vertex => dataToVertex 64 r = .ok vertex)
        [.map [(Value.str "id", Value.int64 2), (Value.str "label", Value.str "Person"),
          (Value.str "name", Value.str "Ada")]] vertices) ∧
    ((∃ vertices, (GetVertices 64 (GraphService.onGraph sampleGraph) "Person" []).1
        = .ok vertices) ↔
      ∀ r ∈ [Data.map [(Value.str "id", Value.int64 2),
          (Value.str "label", Value.str "Person"), (Value.str "name", Value.str "Ada")]],
        ∃ vertex, dataToVertex 64 r = .ok vertex) ∧
    ((∃ r ∈ [Data.map [(Value.str "id", Value.int64 2),
          (Value.str "label", Value.str "Person"), (Value.str "name", Value.str "Ada")]],
        ∃ e, dataToVertex 64 r = .error e) →
      ∃ e, (GetVertices 64 (GraphService.onGraph sampleGraph) "Person" []).1 = .error e) ∧
    ([Data.map [(Value.str "id", Value.int64 2), (Value.str "label", Value.str "Person"),
          (Value.str "name", Value.str "Ada")]] = [] →
      (GetVertices 64 (GraphService.onGraph sampleGraph) "Person" []).1 = .ok []) :=
  GetVertices_results 64 (GraphService.onGraph sampleGraph) "Person" []
    [.map [(Value.str "id", Value.int64 2), (Value.str "label", Value.str "Person"),
      (Value.str "name", Value.str "Ada")]]
    (by decide) rfl

/-! ## Lemmas: the traversals of removal and update on the remote graph -/

/-- A Go `int` in a query matches the stored `Long` of the same value. -/
theorem HasKV_int_matches_stored_long :
    (runSteps [Step.V, Step.HasKV "age" (Value.int 36)]
        { graph := [{ id := 1, label := "Person", props := [("age", Value.int64 36)] }],
          traversers := [], results := [] }).map GState.traversers
      = some [{ id := 1, label := "Person", props := [("age", Value.int64 36)] }] := by
  rfl

theorem runSteps_append (a b : List Step) (st : GState) :
    runSteps (a ++ b) st = (runSteps a st).bind (runSteps b) := by
  induction a generalizing st with
  | nil => rfl
  | cons x rest ih =>
    simp only [List.cons_append, runSteps]
    cases st.step x with
    | none => rfl
    | some st2 => exact ih st2

theorem runSteps_HasKV (props : List Property) (g tr : List GVertex) (res : List Data) :
    runSteps (props.map (fun p => Step.HasKV p.Key p.Value))
        { graph := g, traversers := tr, results := res }
      = some { graph := g,
               traversers := tr.filter (fun x =>
                 props.all (fun p => decide (x.get p.Key = some p.Value.onWire))),
               results := res } := by
  induction props generalizing tr with
  | nil => simp [runSteps]
  | cons p rest ih =>
    simp only [List.map_cons, runSteps, GState.step]
    rw [ih, List.filter_filter]
    simp only [List.all_cons, Bool.and_comm]

theorem runSteps_HasLKV (label : String) (props : List Property) (g tr : List GVertex)
    (res : List Data) :
    runSteps (props.map (fun p => Step.HasLKV label p.Key p.Value))
        { graph := g, traversers := tr, results := res }
      = some { graph := g,
               traversers := tr.filter (fun x =>
                 props.all (fun p => decide (x.label = label ∧ x.get p.Key = some p.Value.onWire))),
               results := res } := by
  induction props generalizing tr with
  | nil => simp [runSteps]
  | cons p rest ih =>
    simp only [List.map_cons, runSteps, GState.step]
    rw [ih, List.filter_filter]
    simp only [List.all_cons, Bool.and_comm]

/-- With at least one property, the tests `Has(label, key, value)` keep the
vertices that have the label and all the properties; with none they keep
every vertex. -/
theorem all_HasLKV_eq (label : String) (props : List Property) (x : GVertex)
    (hne : props ≠ []) :
    props.all (fun p => decide (x.label = label ∧ x.get p.Key = some p.Value.onWire))
      = hasLabelAndProperties label props x := by
  unfold hasLabelAndProperties
  by_cases hl : x.label = label
  · simp [hl]
  · cases props with
    | nil => exact absurd rfl hne
    | cons p rest => simp [hl]

/-- The vertices the read query of `GetVertices` selects. -/
theorem GetVertices_selection (label : String) (props : List Property) (g : List GVertex) :
    runSteps ([Step.V, Step.HasLabel label] ++
        props.map (fun p => Step.HasKV p.Key p.Value))
        { graph := g, traversers := [], results := [] }
      = some { graph := g, traversers := g.filter (hasLabelAndProperties label props),
               results := [] } := by
  rw [runSteps_append]
  simp only [runSteps, GState.step, Option.some_bind]
  rw [runSteps_HasKV, List.filter_filter]
  simp only [Bool.and_comm]
  rfl

/-- The vertices the write traversals of `DeleteVertex` and
`AddPropertiesToVertex` select, for a non-empty list of properties. -/
theorem write_selection (label : String) (props : List Property) (g : List GVertex)
    (hne : props ≠ []) :
    runSteps ([Step.V] ++ props.map (fun p => Step.HasLKV label p.Key p.Value))
        { graph := g, traversers := [], results := [] }
      = some { graph := g, traversers := g.filter (hasLabelAndProperties label props),
               results := [] } := by
  rw [runSteps_append]
  simp only [runSteps, GState.step, Option.some_bind]
  rw [runSteps_HasLKV]
  congr 2
  apply List.filter_congr
  intro x _
  exact all_HasLKV_eq label props x hne

theorem DeleteVertex_traversal (s : GraphService) (label : String)
    (properties : List Property) (hlabel : label ≠ "") :
    (DeleteVertex s label properties).2 =
      [{ source := .writer,
         steps := [Step.V] ++ properties.map (fun p => Step.HasLKV label p.Key p.Value) ++
           [Step.Drop] }] := by
  simp only [DeleteVertex, hlabel, if_false,
    foldl_add_steps (fun p : Property => Step.HasLKV label p.Key p.Value)]
  simp only [traverseAndCheckError, GraphTraversal.add, GraphService.conn, List.nil_append]
  split <;> rename_i h <;> split at h <;> simp_all

/-- For a non-empty label and at least one property, what the traversal of
`DeleteVertex` removes from a graph (distinct ids) is a vertex with the label
and all the properties. -/
theorem DeleteVertex_removes_only_matching (label : String) (properties : List Property)
    (g : List GVertex) (x : GVertex) (hne : properties ≠ [])
    (hnodup : (g.map GVertex.id).Nodup) (hx : x ∈ g) :
    ∃ g2, graphAfter g ([Step.V] ++
        properties.map (fun p => Step.HasLKV label p.Key p.Value) ++ [Step.Drop]) = some g2 ∧
      (x ∉ g2 ↔ hasLabelAndProperties label properties x = true) := by
  unfold graphAfter
  rw [runSteps_append, write_selection label properties g hne]
  simp only [Option.bind_some, runSteps, GState.step, Option.map_some']
  refine ⟨_, rfl, ?_⟩
  simp only [List.mem_filter, hx, true_and, Bool.not_eq_true', List.any_eq_false,
    decide_eq_true_eq, not_forall, Classical.not_not, and_imp]
  constructor
  · rintro ⟨t, ht, hmatch, hid⟩
    have := List.inj_on_of_nodup_map hnodup ht hx hid
    rw [← this]
    exact hmatch
  · intro h
    exact ⟨x, hx, h, rfl⟩

theorem runSteps_Property (new : List Property) (g tr : List GVertex) (res : List Data) :
    runSteps (new.map (fun p => Step.Property p.Key p.Value))
        { graph := g, traversers := tr, results := res }
      = some { graph := g.map (fun x =>
                 if tr.any (fun t => t.id = x.id)
                 then new.foldl (fun y p => y.put p.Key p.Value.onWire) x else x),
               traversers := tr.map (fun t => new.foldl (fun y p => y.put p.Key p.Value.onWire) t),
               results := res } := by
  induction new generalizing g tr with
  | nil => simp [runSteps]
  | cons p rest ih =>
    simp only [List.map_cons, runSteps, GState.step]
    rw [ih]
    simp only [List.map_map, List.foldl_cons, List.any_map]
    congr 2
    · apply List.map_congr_left
      intro x _
      simp only [Function.comp]
      by_cases hsel : (tr.any fun t => decide (t.id = x.id)) = true
      · simp only [hsel, if_true]
        have : (tr.any ((fun t => decide (t.id = (x.put p.Key p.Value.onWire).id)) ∘
            fun t => t.put p.Key p.Value.onWire)) = true := by
          simpa [Function.comp, GVertex.put] using hsel
        simp only [this, if_true]
      · simp only [hsel]
        have : (tr.any ((fun t => decide (t.id = x.id)) ∘
            fun t => t.put p.Key p.Value.onWire)) = false := by
          simpa [Function.comp, GVertex.put] using hsel
        simp [this]

theorem AddPropertiesToVertex_no_match (w : Nat) (s : GraphService) (label : String)
    (existing new : List Property) (hlabel : label ≠ "")
    (hres : s.reader.toList ([Step.V, Step.HasLabel label] ++
        existing.map (fun p => Step.HasKV p.Key p.Value) ++ [Step.ElementMap]) = .ok []) :
    AddPropertiesToVertex w s label existing new =
      (some (.wrap .ErrNoResults "gremlin error adding property to vertex"),
       [{ source := .reader,
          steps := [Step.V, Step.HasLabel label] ++
            existing.map (fun p => Step.HasKV p.Key p.Value) ++ [Step.ElementMap] }]) := by
  unfold AddPropertiesToVertex
  rw [GetVertices_eq w s label existing hlabel, hres]
  simp [convertResults]

theorem AddPropertiesToVertex_traversals (w : Nat) (s : GraphService) (label : String)
    (existing new : List Property) (existingV : List Vertex) (tr : List GraphTraversal)
    (hget : GetVertices w s label existing = (.ok existingV, tr)) (hne : existingV ≠ []) :
    (AddPropertiesToVertex w s label existing new).2 =
      tr ++ [{ source := .writer,
               steps := [Step.V] ++ existing.map (fun p => Step.HasLKV label p.Key p.Value) ++
                 new.map (fun p => Step.Property p.Key p.Value) }] := by
  have hlen : existingV.length ≠ 0 := fun h => hne (List.length_eq_zero.mp h)
  unfold AddPropertiesToVertex
  simp only [hget, hlen, if_false,
    foldl_add_steps (fun p : Property => Step.HasLKV label p.Key p.Value),
    foldl_add_steps (fun p : Property => Step.Property p.Key p.Value)]
  simp only [traverseAndCheckError, GraphTraversal.add, GraphService.conn, List.nil_append]
  split <;> rename_i h <;> split at h <;> simp_all

/-- For at least one `existing` property, the write traversal of
`AddPropertiesToVertex` sets the new properties on the vertices that have the
label and all `existing` properties, and leaves the other vertices unchanged. -/
theorem AddPropertiesToVertex_updates_only_matching (label : String)
    (existing new : List Property) (g : List GVertex) (hne : existing ≠ [])
    (hnodup : (g.map GVertex.id).Nodup) :
    graphAfter g ([Step.V] ++ existing.map (fun p => Step.HasLKV label p.Key p.Value) ++
        new.map (fun p => Step.Property p.Key p.Value))
      = some (g.map (fun x =>
          if hasLabelAndProperties label existing x = true
          then new.foldl (fun y p => y.put p.Key p.Value.onWire) x else x)) := by
  unfold graphAfter
  rw [runSteps_append, write_selection label existing g hne]
  simp only [Option.some_bind, runSteps_Property, Option.map_some']
  congr 1
  apply List.map_congr_left
  intro x hx
  have hiff : ((g.filter (hasLabelAndProperties label existing)).any
      (fun t => decide (t.id = x.id))) = hasLabelAndProperties label existing x := by
    cases hm : hasLabelAndProperties label existing x with
    | true =>
      rw [List.any_eq_true]
      exact ⟨x, List.mem_filter.mpr ⟨hx, hm⟩, by simp⟩
    | false =>
      rw [List.any_eq_false]
      intro t ht
      obtain ⟨htg, htm⟩ := List.mem_filter.mp ht
      simp only [decide_eq_true_eq]
      intro hid
      have := List.inj_on_of_nodup_map hnodup htg hx hid
      rw [this, hm] at htm
      cases htm
  rw [hiff]

/-! ## Theorems: removal and update of vertices -/

/-- C1 fails on the code: with the label "Person" and no property,
`DeleteVertex` submits `V().Drop()`, which holds no test of the label, and on
the sample graph that traversal removes the vertex labelled "Dog" as well. -/
theorem DeleteVertex_no_properties_drops_every_vertex :
    DeleteVertex (GraphService.onGraph sampleGraph) "Person" []
      = (none, [{ source := .writer, steps := [Step.V, Step.Drop] }]) ∧
    graphAfter sampleGraph [Step.V, Step.Drop] = some [] ∧
    ({ id := 1, label := "Dog", props := [("name", Value.str "Rex")] } : GVertex)
      ∈ sampleGraph := by
  refine ⟨?_, ?_, ?_⟩
  · rfl
  · rfl
  · simp [sampleGraph]

/-- C2 fails on the code: with the label "Person", no `existing` property
and the new property `vip`, the pre-check of `AddPropertiesToVertex` matches
the person only, but the write traversal it then submits is
`V().Property("vip", true)`, without any test of the label, and on the sample
graph it sets `vip` on the vertex labelled "Dog" as well. -/
theorem AddPropertiesToVertex_no_existing_updates_every_vertex :
    AddPropertiesToVertex 64 (GraphService.onGraph sampleGraph) "Person" []
        [{ Key := "vip", Value := Value.bool true }]
      = (none, [{ source := .reader,
                  steps := [Step.V, Step.HasLabel "Person", Step.ElementMap] },
                { source := .writer,
                  steps := [Step.V, Step.Property "vip" (Value.bool true)] }]) ∧
    (match (GetVertices 64 (GraphService.onGraph sampleGraph) "Person" []).1 with
      | .ok vertices => vertices.map Vertex.Id
      | .error _ => []) = ["2"] ∧
    graphAfter sampleGraph [Step.V, Step.Property "vip" (Value.bool true)]
      = some [{ id := 1, label := "Dog",
                props := [("vip", Value.bool true), ("name", Value.str "Rex")] },
              { id := 2, label := "Person",
                props := [("vip", Value.bool true), ("name", Value.str "Ada")] }] := by
  refine ⟨?_, ?_, ?_⟩
  · rfl
  · rfl
  · rfl

/-! ## Theorems: validation before any remote execution -/

/-- C8: with an empty label, `AddVertex`, `GetVertices`,
`AddPropertiesToVertex`, `DeleteVertex` and `GetVerticesByEdges`, and with an
empty out-label or in-label `AddEdge` and `RemoveEdge`, return an error whose
cause is `ErrLabelCannotBeEmpty`; with a non-empty label, `GetVerticesByEdges`
returns an error for an empty list of edge labels and for an unrecognised
direction; and in each of these cases no traversal is submitted. -/
theorem facade_rejects_invalid_arguments (w : Nat) (s : GraphService)
    (property out inp : Property) (properties existing new : List Property)
    (label outLabel inLabel edgeLabel : String) (d direction : TraversalDirection)
    (edgeLabels : List String) (hlabel : label ≠ "")
    (hout : direction ≠ TraversalDirectionOut) (hin : direction ≠ TraversalDirectionIn)
    (hboth : direction ≠ TraversalDirectionBoth) :
    (∃ e, AddVertex s "" property = (some e, []) ∧ e.cause = .ErrLabelCannotBeEmpty) ∧
    (∃ e, GetVertices w s "" properties = (.error e, []) ∧
      e.cause = .ErrLabelCannotBeEmpty) ∧
    (∃ e, AddPropertiesToVertex w s "" existing new = (some e, []) ∧
      e.cause = .ErrLabelCannotBeEmpty) ∧
    (∃ e, DeleteVertex s "" properties = (some e, []) ∧ e.cause = .ErrLabelCannotBeEmpty) ∧
    (∃ e, GetVerticesByEdges w s d "" properties edgeLabels = (.error e, []) ∧
      e.cause = .ErrLabelCannotBeEmpty) ∧
    (∃ e, AddEdge s "" out inLabel inp edgeLabel = (some e, []) ∧
      e.cause = .ErrLabelCannotBeEmpty) ∧
    (∃ e, AddEdge s outLabel out "" inp edgeLabel = (some e, []) ∧
      e.cause = .ErrLabelCannotBeEmpty) ∧
    (∃ e, RemoveEdge s "" out inLabel inp edgeLabel = (some e, []) ∧
      e.cause = .ErrLabelCannotBeEmpty) ∧
    (∃ e, RemoveEdge s outLabel out "" inp edgeLabel = (some e, []) ∧
      e.cause = .ErrLabelCannotBeEmpty) ∧
    (∃ e, GetVerticesByEdges w s d label properties [] = (.error e, []) ∧
      e.cause = .errNoEdgeLabels) ∧
    (∃ e, GetVerticesByEdges w s direction label properties edgeLabels = (.error e, [])) := by
  refine ⟨?_, ?_, ?_, ?_, ?_, ?_, ?_, ?_, ?_, ?_, ?_⟩
  · exact ⟨.wrap .ErrLabelCannotBeEmpty "gremlin error adding vertex",
      by simp [AddVertex], rfl⟩
  · exact ⟨.wrap .ErrLabelCannotBeEmpty "gremlin error getting vertices",
      by simp [GetVertices], rfl⟩
  · exact ⟨.wrap (.wrap .ErrLabelCannotBeEmpty "gremlin error getting vertices")
      "gremlin error adding property to vertex",
      by simp [AddPropertiesToVertex, GetVertices], rfl⟩
  · exact ⟨.wrap .ErrLabelCannotBeEmpty "gremlin error deleting vertex",
      by simp [DeleteVertex], rfl⟩
  · exact ⟨.wrap .ErrLabelCannotBeEmpty "gremlin error traversing request",
      by simp [GetVerticesByEdges], rfl⟩
  · exact ⟨.wrap .ErrLabelCannotBeEmpty "gremlin error adding edge",
      by simp [AddEdge], rfl⟩
  · exact ⟨.wrap .ErrLabelCannotBeEmpty "gremlin error adding edge",
      by simp [AddEdge], rfl⟩
  · exact ⟨.wrap .ErrLabelCannotBeEmpty "gremlin error removing edge",
      by simp [RemoveEdge], rfl⟩
  · exact ⟨.wrap .ErrLabelCannotBeEmpty "gremlin error removing edge",
      by simp [RemoveEdge], rfl⟩
  · exact ⟨.wrap .errNoEdgeLabels "gremlin error traversing request",
      by simp [GetVerticesByEdges, hlabel, setTraversalPath], rfl⟩
  · by_cases he : edgeLabels.length = 0
    · exact ⟨.wrap .errNoEdgeLabels "gremlin error traversing request",
        by simp [GetVerticesByEdges, hlabel, setTraversalPath, he]⟩
    · exact ⟨.wrap .errInvalidTraversalDirection "gremlin error traversing request",
        by simp [GetVerticesByEdges, hlabel, setTraversalPath, he, hout, hin, hboth]⟩

theorem facade_rejects_invalid_arguments_witness :
    (∃ e, GetVerticesByEdges 64 (GraphService.onGraph sampleGraph) "SIDEWAYS" "Person" []
        ["knows"] = (.error e, [])) ∧
    (∃ e, GetVerticesByEdges 64 (GraphService.onGraph sampleGraph) TraversalDirectionOut
        "Person" [] [] = (.error e, []) ∧ e.cause = .errNoEdgeLabels) ∧
    (∃ e, AddVertex (GraphService.onGraph sampleGraph) ""
        { Key := "name", Value := Value.str "Ada" } = (some e, []) ∧
      e.cause = .ErrLabelCannotBeEmpty) :=
  have h := facade_rejects_invalid_arguments 64 (GraphService.onGraph sampleGraph)
    { Key := "name", Value := Value.str "Ada" } { Key := "name", Value := Value.str "Ada" }
    { Key := "name", Value := Value.str "Rex" } [] [] [] "Person" "Person" "Dog" "owns"
    TraversalDirectionOut "SIDEWAYS" ["knows"] (by decide) (by decide) (by decide) (by decide)
  ⟨h.2.2.2.2.2.2.2.2.2.2, h.2.2.2.2.2.2.2.2.2.1, h.1⟩

end GraphDB
